import Mathlib

/-!
Verification of the graph-construction and validation pipeline of the
Knowledge_Graph_Visualizer repository.

The core under study is `visualize_graph` in `src/main.py` (lines 56-122):
it filters the relationships of the first extracted graph document against
the node set (the Validator), then builds a pyvis `Network` from the
surviving edges and their endpoint nodes (the Builder).  The pyvis calls
`Network.add_node` / `Network.add_edge` are embedded with their observable
semantics on a directed network: `add_node` is a no-op when the id is
already present; `add_edge` asserts both endpoints exist (raising
otherwise) and appends the edge, keeping parallel edges distinct.

`src/app.py` contributes the character-limit handling (`truncate_text` and
the guard inside `handle_graph_generation`); Python `str` is modelled there
as a list of characters, so that length, slicing and `strip()` keep their
Python (character-counting) semantics.
-/

namespace KG

/-- A node of an extraction result: `id` is the unique key, `type` the
string label (src/main.py uses `node.id` and `node.type`). -/
structure Node where
  id : String
  type : String
  deriving DecidableEq, Repr

/-- A relationship of an extraction result: weak references to two nodes
plus a type label (src/main.py uses `rel.source.id`, `rel.target.id`,
`rel.type`). -/
structure Relationship where
  source : Node
  target : Node
  type : String
  deriving DecidableEq, Repr

/-- One `GraphDocument`: `visualize_graph` reads `graph_documents[0].nodes`
and `graph_documents[0].relationships`. -/
structure GraphDocument where
  nodes : List Node
  relationships : List Relationship
  deriving DecidableEq, Repr

/-- Key membership in the Python dict `node_dict = \x7bnode.id: node for node
in nodes\x7d` (src/main.py line 79): an id is a key iff some node carries it. -/
def dictContains (nodes : List Node) (i : String) : Bool :=
  nodes.any (fun n => n.id == i)

/-- Lookup `node_dict[node_id]` (src/main.py line 91): in a Python dict
comprehension a later node with the same id overwrites an earlier one, so
the last matching node wins. -/
def dictGet (nodes : List Node) (i : String) : Option Node :=
  nodes.reverse.find? (fun n => n.id == i)

/-- Insertion into the Python set `valid_node_ids`, modelled as an
insertion-ordered duplicate-free list (the program only ever iterates the
set and tests membership, so any deterministic representative works). -/
def setInsert (s : List String) (x : String) : List String :=
  if x ∈ s then s else s ++ [x]

/-- The retention test of the validation loop (src/main.py line 85):
`rel.source.id in node_dict and rel.target.id in node_dict`. -/
def isValidRel (nodes : List Node) (rel : Relationship) : Bool :=
  dictContains nodes rel.source.id && dictContains nodes rel.target.id

/-- One iteration of the validation loop (src/main.py lines 84-87): a
retained relationship is appended to `valid_edges` and its two endpoint ids
are added to `valid_node_ids` (source first, then target, as in
`valid_node_ids.update([rel.source.id, rel.target.id])`). -/
def validateStep (nodes : List Node) (acc : List Relationship × List String)
    (rel : Relationship) : List Relationship × List String :=
  if isValidRel nodes rel then
    (acc.1 ++ [rel], setInsert (setInsert acc.2 rel.source.id) rel.target.id)
  else
    acc

/-- The whole validation loop (src/main.py lines 82-87), returning the pair
`(valid_edges, valid_node_ids)`. -/
def validate (nodes : List Node) (relationships : List Relationship) :
    List Relationship × List String :=
  relationships.foldl (validateStep nodes) ([], [])

/-- A vertex record stored by pyvis `add_node(node.id, label=node.id,
title=node.type, group=node.type)`. -/
structure Vertex where
  id : String
  label : String
  title : String
  group : String
  deriving DecidableEq, Repr

/-- An edge record stored by pyvis `add_edge(source, to, label=...)`. -/
structure Edge where
  source : String
  target : String
  label : String
  deriving DecidableEq, Repr

/-- The state of the pyvis `Network` observed by the program: the list of
added node ids, the vertex records and the edge records.  `src/main.py`
always constructs the network with `directed=True`. -/
structure Network where
  node_ids : List String
  nodes : List Vertex
  edges : List Edge
  deriving DecidableEq, Repr

/-- The freshly constructed network of src/main.py lines 71-73. -/
def emptyNetwork : Network := ⟨[], [], []⟩

/-- pyvis `Network.add_node`: when the id was already added the call is a
no-op, otherwise the id and a vertex record are appended. -/
def addNode (net : Network) (i lab tit grp : String) : Network :=
  if i ∈ net.node_ids then net
  else
    { net with
      node_ids := net.node_ids ++ [i],
      nodes := net.nodes ++ [⟨i, lab, tit, grp⟩] }

/-- pyvis `Network.add_edge` on a directed network: it asserts that both
endpoints were added (an `AssertionError`, here `none`, otherwise) and then
appends the edge; on a directed network no duplicate check is made, so
parallel edges stay distinct. -/
def addEdge (net : Network) (s t lab : String) : Option Network :=
  if s ∈ net.node_ids ∧ t ∈ net.node_ids then
    some { net with edges := net.edges ++ [⟨s, t, lab⟩] }
  else
    none

/-- The node-adding loop of `visualize_graph` (src/main.py lines 90-96).
The lookup `node = node_dict[node_id]` sits outside the `try`, so a missing
id would raise `KeyError` out of the whole function: that is the `none`
case.  (It never fires when the ids come from `validate`; the `try` around
`add_node` itself never fires at all, since `add_node` raises on no input
reachable here.) -/
def addValidNodes (nodes : List Node) : Network → List String → Option Network
  | net, [] => some net
  | net, i :: rest =>
    match dictGet nodes i with
    | some node => addValidNodes nodes (addNode net node.id node.id node.type node.type) rest
    | none => none

/-- Python `str.lower()`, modelled character-wise (this is extensionally
what `String.toLower` computes, stated over the character list so that the
kernel can evaluate it on literals). -/
def pyLower (s : String) : String :=
  ⟨s.data.map Char.toLower⟩

/-- The label attached to a retained relationship's edge:
`add_edge(rel.source.id, rel.target.id, label=rel.type.lower())`. -/
def mkEdge (rel : Relationship) : Edge :=
  ⟨rel.source.id, rel.target.id, pyLower rel.type⟩

/-- One iteration of the edge-adding loop of `visualize_graph`
(src/main.py lines 99-104): `add_edge(rel.source.id, rel.target.id,
label=rel.type.lower())` inside `try`; a raising call is caught by the
`except` clause and leaves the network as it was (`continue`). -/
def addEdgeStep (n : Network) (rel : Relationship) : Network :=
  match addEdge n rel.source.id rel.target.id (pyLower rel.type) with
  | some n2 => n2
  | none => n

/-- The edge-adding loop of `visualize_graph` (src/main.py lines 98-104). -/
def addValidEdges (net : Network) (rels : List Relationship) : Network :=
  rels.foldl addEdgeStep net

/-- `visualize_graph` (src/main.py lines 56-122).  A falsy argument —
Python `None` or the empty list — returns `None` (lines 66-68); otherwise
the network is built from the first graph document.  The inner `none` case
models the unreachable `KeyError` escaping the function as an exception. -/
def visualize_graph : Option (List GraphDocument) → Option Network
  | none => none
  | some [] => none
  | some (doc :: _) =>
    let v := validate doc.nodes doc.relationships
    match addValidNodes doc.nodes emptyNetwork v.2 with
    | some net => some (addValidEdges net v.1)
    | none => none

/-- `generate_knowledge_graph_async` (src/main.py lines 124-143): a falsy
extraction result gives `(None, None)`; for a non-empty one the pair
`(net, graph_documents)` is returned, and an exception escaping
`visualize_graph` (the modelled `none` on a non-empty list, which never
occurs) is caught into `(None, None)`. -/
def generate_knowledge_graph_async (gd : Option (List GraphDocument)) :
    Option Network × Option (List GraphDocument) :=
  match gd with
  | none => (none, none)
  | some [] => (none, none)
  | some (doc :: rest) =>
    match visualize_graph (some (doc :: rest)) with
    | some net => (some net, some (doc :: rest))
    | none => (none, none)

/-- Python `str.strip()`: drop leading and trailing whitespace characters
(Python `str` is modelled as a list of characters). -/
def pyStrip (s : List Char) : List Char :=
  ((s.dropWhile Char.isWhitespace).reverse.dropWhile Char.isWhitespace).reverse

/-- `truncate_text` (src/app.py lines 71-75): texts longer than the limit
are cut to the first `limit` characters, shorter ones pass unchanged. -/
def truncate_text (text : List Char) (limit : Nat) : List Char :=
  if text.length > limit then text.take limit else text

/-- The guard of `handle_graph_generation` (src/app.py line 178):
`len(text.strip()) > 0 and len(text) <= CHAR_LIMIT` — exactly when it holds
does the function enter the generation branch and call the extraction
pipeline. -/
def handleGraphGenerationStarts (text : List Char) (charLimit : Nat) : Bool :=
  decide (0 < (pyStrip text).length) && decide (text.length ≤ charLimit)

/-- The file-upload flow (src/app.py lines 234-261): the extracted text is
first passed through `truncate_text` (line 241) and only then handed to
`handle_graph_generation` (line 261). -/
def uploadFlowStarts (text : List Char) (charLimit : Nat) : Bool :=
  handleGraphGenerationStarts (truncate_text text charLimit) charLimit

/-- The demo nodes of the §8 scenario: N = \x7bA:Person, B:Person, C:Org\x7d. -/
def demoNodes : List Node := [⟨"A", "Person"⟩, ⟨"B", "Person"⟩, ⟨"C", "Org"⟩]

/-- The dangling node X of the §8 scenario (not a member of `demoNodes`). -/
def demoX : Node := ⟨"X", "Org"⟩

/-- The retained relationship (A, WORKS_FOR, C) of the §8 scenario. -/
def demoRelAC : Relationship := ⟨⟨"A", "Person"⟩, ⟨"C", "Org"⟩, "WORKS_FOR"⟩

/-- The dangling relationship (A, KNOWS, X) of the §8 scenario. -/
def demoRelAX : Relationship := ⟨⟨"A", "Person"⟩, demoX, "KNOWS"⟩

/-- The §8 scenario document. -/
def demoDoc : GraphDocument := ⟨demoNodes, [demoRelAC, demoRelAX]⟩

/-- The network `visualize_graph` produces on the §8 scenario. -/
def demoNet : Network :=
  ⟨["A", "C"],
   [⟨"A", "A", "Person", "Person"⟩, ⟨"C", "C", "Org", "Org"⟩],
   [⟨"A", "C", "works_for"⟩]⟩

/-- An eight-character demo text, longer than a limit of five. -/
def demoLongText : List Char := ['a', 'b', 'c', 'd', 'e', 'f', 'g', 'h']

/-! ## Lemmas about the dictionary and set models -/

theorem dictContains_iff (nodes : List Node) (i : String) :
    dictContains nodes i = true ↔ i ∈ nodes.map Node.id := by
  simp [dictContains, List.any_eq_true]

theorem dictGet_isSome_iff (nodes : List Node) (i : String) :
    (dictGet nodes i).isSome = true ↔ i ∈ nodes.map Node.id := by
  simp [dictGet, List.find?_isSome]

theorem dictGet_id (nodes : List Node) (i : String) (n : Node)
    (h : dictGet nodes i = some n) : n.id = i := by
  have hp := List.find?_some h
  simpa using hp

theorem mem_setInsert (s : List String) (y x : String) :
    x ∈ setInsert s y ↔ x ∈ s ∨ x = y := by
  unfold setInsert
  by_cases h : y ∈ s
  · simp only [if_pos h]
    constructor
    · exact fun hx => Or.inl hx
    · rintro (hx | rfl)
      · exact hx
      · exact h
  · simp [if_neg h]

theorem setInsert_nodup (s : List String) (y : String) (h : s.Nodup) :
    (setInsert s y).Nodup := by
  unfold setInsert
  by_cases hy : y ∈ s
  · simpa [if_pos hy] using h
  · simp only [if_neg hy]
    refine List.Nodup.append h (List.nodup_singleton y) ?_
    intro a ha hb
    rw [List.mem_singleton] at hb
    subst hb
    exact hy ha

/-! ## Characterization of the validation loop -/

theorem validate_foldl_fst (nodes : List Node) (rels : List Relationship)
    (acc : List Relationship × List String) :
    (rels.foldl (validateStep nodes) acc).1 = acc.1 ++ rels.filter (isValidRel nodes) := by
  induction rels generalizing acc with
  | nil => simp
  | cons r rs ih =>
    rw [List.foldl_cons, ih, List.filter_cons]
    cases h : isValidRel nodes r with
    | false => simp [validateStep, h]
    | true => simp [validateStep, h]

theorem validate_fst_eq (nodes : List Node) (rels : List Relationship) :
    (validate nodes rels).1 = rels.filter (isValidRel nodes) := by
  simpa using validate_foldl_fst nodes rels ([], [])

theorem validate_foldl_snd_mem (nodes : List Node) (rels : List Relationship)
    (acc : List Relationship × List String) (x : String) :
    x ∈ (rels.foldl (validateStep nodes) acc).2 ↔
      x ∈ acc.2 ∨ ∃ rel, rel ∈ rels.filter (isValidRel nodes) ∧
        (x = rel.source.id ∨ x = rel.target.id) := by
  induction rels generalizing acc with
  | nil => simp
  | cons r rs ih =>
    rw [List.foldl_cons, ih, List.filter_cons]
    cases h : isValidRel nodes r with
    | false => simp [validateStep, h]
    | true =>
      simp only [validateStep, h, if_true, List.mem_cons]
      simp [mem_setInsert]
      aesop

theorem validate_snd_mem (nodes : List Node) (rels : List Relationship) (x : String) :
    x ∈ (validate nodes rels).2 ↔
      ∃ rel, rel ∈ (validate nodes rels).1 ∧ (x = rel.source.id ∨ x = rel.target.id) := by
  rw [validate_fst_eq]
  simpa using validate_foldl_snd_mem nodes rels ([], []) x

theorem validate_foldl_snd_nodup (nodes : List Node) (rels : List Relationship)
    (acc : List Relationship × List String) (h : acc.2.Nodup) :
    (rels.foldl (validateStep nodes) acc).2.Nodup := by
  induction rels generalizing acc with
  | nil => exact h
  | cons r rs ih =>
    rw [List.foldl_cons]
    apply ih
    cases hv : isValidRel nodes r with
    | false => simpa [validateStep, hv] using h
    | true =>
      simp only [validateStep, hv, if_true]
      exact setInsert_nodup _ _ (setInsert_nodup _ _ h)

theorem validate_snd_nodup (nodes : List Node) (rels : List Relationship) :
    (validate nodes rels).2.Nodup :=
  validate_foldl_snd_nodup nodes rels ([], []) (by simp)

theorem validate_fst_valid (nodes : List Node) (rels : List Relationship)
    (rel : Relationship) (h : rel ∈ (validate nodes rels).1) :
    isValidRel nodes rel = true := by
  rw [validate_fst_eq] at h
  exact List.of_mem_filter h

theorem validate_snd_subset (nodes : List Node) (rels : List Relationship)
    (x : String) (h : x ∈ (validate nodes rels).2) : x ∈ nodes.map Node.id := by
  obtain ⟨rel, hrel, hx⟩ := (validate_snd_mem nodes rels x).mp h
  have hv := validate_fst_valid nodes rels rel hrel
  unfold isValidRel at hv
  rw [Bool.and_eq_true] at hv
  rcases hx with rfl | rfl
  · exact (dictContains_iff nodes _).mp hv.1
  · exact (dictContains_iff nodes _).mp hv.2

theorem validate_endpoints_mem (nodes : List Node) (rels : List Relationship)
    (rel : Relationship) (h : rel ∈ (validate nodes rels).1) :
    rel.source.id ∈ (validate nodes rels).2 ∧ rel.target.id ∈ (validate nodes rels).2 :=
  ⟨(validate_snd_mem nodes rels _).mpr ⟨rel, h, Or.inl rfl⟩,
   (validate_snd_mem nodes rels _).mpr ⟨rel, h, Or.inr rfl⟩⟩

/-! ## Lemmas about the pyvis network model -/

theorem addNode_of_mem (net : Network) (i lab tit grp : String)
    (h : i ∈ net.node_ids) : addNode net i lab tit grp = net := by
  simp [addNode, h]

theorem addNode_node_ids (net : Network) (i lab tit grp : String) :
    (addNode net i lab tit grp).node_ids =
      if i ∈ net.node_ids then net.node_ids else net.node_ids ++ [i] := by
  by_cases h : i ∈ net.node_ids <;> simp [addNode, h]

theorem addNode_edges (net : Network) (i lab tit grp : String) :
    (addNode net i lab tit grp).edges = net.edges := by
  by_cases h : i ∈ net.node_ids <;> simp [addNode, h]

theorem addValidNodes_eq (nodes : List Node) (ids : List String) :
    ∀ net : Network, (∀ i ∈ ids, i ∈ nodes.map Node.id) →
      (∀ i ∈ ids, i ∉ net.node_ids) → ids.Nodup →
      ∃ net2, addValidNodes nodes net ids = some net2 ∧
        net2.node_ids = net.node_ids ++ ids ∧
        net2.nodes.map Vertex.id = net.nodes.map Vertex.id ++ ids ∧
        net2.edges = net.edges := by
  induction ids with
  | nil =>
    intro net _ _ _
    exact ⟨net, rfl, by simp, by simp, rfl⟩
  | cons i rest ih =>
    intro net hfound hnew hnodup
    have hi : i ∈ nodes.map Node.id := hfound i (List.mem_cons_self i rest)
    have hsome : (dictGet nodes i).isSome := (dictGet_isSome_iff nodes i).mpr hi
    obtain ⟨node, hget⟩ := Option.isSome_iff_exists.mp hsome
    have hid : node.id = i := dictGet_id nodes i node hget
    have hin : i ∉ net.node_ids := hnew i (List.mem_cons_self i rest)
    have hnodup2 := List.nodup_cons.mp hnodup
    obtain ⟨net2, heq, h1, h2, h3⟩ :=
      ih (addNode net node.id node.id node.type node.type)
        (fun j hj => hfound j (List.mem_cons_of_mem _ hj))
        (fun j hj => by
          rw [addNode_node_ids, hid, if_neg hin]
          simp only [List.mem_append, List.mem_singleton]
          rintro (hjin | rfl)
          · exact hnew j (List.mem_cons_of_mem _ hj) hjin
          · exact hnodup2.1 hj)
        hnodup2.2
    refine ⟨net2, ?_, ?_, ?_, ?_⟩
    · simpa only [addValidNodes, hget] using heq
    · rw [h1, addNode_node_ids, hid, if_neg hin, List.append_assoc, List.singleton_append]
    · rw [h2, hid]
      simp only [addNode, if_neg hin]
      simp [List.append_assoc]
    · rw [h3, addNode_edges]

/-- The success condition of `addEdge`: both endpoints were already added
as vertex ids of the network. -/
def edgeOk (net : Network) (rel : Relationship) : Bool :=
  decide (rel.source.id ∈ net.node_ids) && decide (rel.target.id ∈ net.node_ids)

theorem edgeOk_congr (net net2 : Network) (h : net.node_ids = net2.node_ids)
    (rel : Relationship) : edgeOk net rel = edgeOk net2 rel := by
  simp [edgeOk, h]

theorem addEdgeStep_eq (net : Network) (rel : Relationship) :
    addEdgeStep net rel =
      if edgeOk net rel then { net with edges := net.edges ++ [mkEdge rel] } else net := by
  by_cases h1 : rel.source.id ∈ net.node_ids <;>
    by_cases h2 : rel.target.id ∈ net.node_ids <;>
      simp [addEdgeStep, addEdge, edgeOk, mkEdge, h1, h2]

theorem addEdgeStep_node_ids (net : Network) (rel : Relationship) :
    (addEdgeStep net rel).node_ids = net.node_ids := by
  rw [addEdgeStep_eq]
  by_cases h : edgeOk net rel = true <;> simp [h]

theorem addEdgeStep_nodes (net : Network) (rel : Relationship) :
    (addEdgeStep net rel).nodes = net.nodes := by
  rw [addEdgeStep_eq]
  by_cases h : edgeOk net rel = true <;> simp [h]

theorem addValidEdges_spec (rels : List Relationship) (net : Network) :
    (addValidEdges net rels).node_ids = net.node_ids ∧
    (addValidEdges net rels).nodes = net.nodes ∧
    (addValidEdges net rels).edges = net.edges ++ (rels.filter (edgeOk net)).map mkEdge := by
  induction rels generalizing net with
  | nil => simp [addValidEdges]
  | cons r rs ih =>
    have hfoldl : addValidEdges net (r :: rs) = addValidEdges (addEdgeStep net r) rs := rfl
    have h0 := addEdgeStep_node_ids net r
    have h1 := addEdgeStep_nodes net r
    have hrec := ih (addEdgeStep net r)
    have hfc : rs.filter (edgeOk (addEdgeStep net r)) = rs.filter (edgeOk net) :=
      List.filter_congr (fun a _ => edgeOk_congr _ _ h0 a)
    refine ⟨?_, ?_, ?_⟩
    · rw [hfoldl, hrec.1, h0]
    · rw [hfoldl, hrec.2.1, h1]
    · rw [hfoldl, hrec.2.2, hfc, List.filter_cons]
      by_cases h : edgeOk net r = true
      · have hed : (addEdgeStep net r).edges = net.edges ++ [mkEdge r] := by
          rw [addEdgeStep_eq]
          simp [h]
        rw [hed]
        simp [h, List.append_assoc]
      · have hed : (addEdgeStep net r).edges = net.edges := by
          rw [addEdgeStep_eq]
          simp [h]
        rw [hed]
        simp [h]

/-- The Builder on a validation result: `visualize_graph` on a non-empty
document list always succeeds, its vertex ids are exactly `valid_node_ids`
and its edges are exactly the retained relationships in order, labeled with
the lower-cased type. -/
theorem visualize_graph_some (doc : GraphDocument) (rest : List GraphDocument) :
    ∃ net, visualize_graph (some (doc :: rest)) = some net ∧
      net.node_ids = (validate doc.nodes doc.relationships).2 ∧
      net.nodes.map Vertex.id = (validate doc.nodes doc.relationships).2 ∧
      net.edges = ((validate doc.nodes doc.relationships).1).map mkEdge := by
  obtain ⟨net1, heq, hids, hverts, hedges⟩ :=
    addValidNodes_eq doc.nodes (validate doc.nodes doc.relationships).2 emptyNetwork
      (fun i hi => validate_snd_subset _ _ i hi)
      (fun i _ => by simp [emptyNetwork])
      (validate_snd_nodup _ _)
  have hspec := addValidEdges_spec (validate doc.nodes doc.relationships).1 net1
  refine ⟨addValidEdges net1 (validate doc.nodes doc.relationships).1, ?_, ?_, ?_, ?_⟩
  · show (match addValidNodes doc.nodes emptyNetwork (validate doc.nodes doc.relationships).2 with
          | some net => some (addValidEdges net (validate doc.nodes doc.relationships).1)
          | none => none) = _
    rw [heq]
  · rw [hspec.1, hids]
    simp [emptyNetwork]
  · rw [hspec.2.1, hverts]
    simp [emptyNetwork]
  · rw [hspec.2.2, hedges]
    have hfull : ((validate doc.nodes doc.relationships).1).filter (edgeOk net1) =
        (validate doc.nodes doc.relationships).1 := by
      apply List.filter_eq_self.mpr
      intro rel hrel
      have hmem := validate_endpoints_mem doc.nodes doc.relationships rel hrel
      have hids2 : net1.node_ids = (validate doc.nodes doc.relationships).2 := by
        rw [hids]
        simp [emptyNetwork]
      simp [edgeOk, hids2, hmem.1, hmem.2]
    rw [hfull]
    simp [emptyNetwork]

/-- Two networks with equal fields are equal. -/
theorem Network.fields_eq (a b : Network) (h1 : a.node_ids = b.node_ids)
    (h2 : a.nodes = b.nodes) (h3 : a.edges = b.edges) : a = b := by
  cases a
  cases b
  simp_all

/-! ## Claim theorems -/

/-- Claim C1: validator postcondition — every relationship retained in
`valid_edges` has both its `source.id` and `target.id` among the ids of the
node set, and `valid_node_ids` equals exactly the union of the source and
target ids of the retained edges (hence is a subset of the ids of the node
set). -/
theorem C1_validator_postcondition (nodes : List Node) (rels : List Relationship) :
    (∀ rel ∈ (validate nodes rels).1,
        rel.source.id ∈ nodes.map Node.id ∧ rel.target.id ∈ nodes.map Node.id) ∧
    (∀ x, x ∈ (validate nodes rels).2 ↔
        ∃ rel ∈ (validate nodes rels).1, x = rel.source.id ∨ x = rel.target.id) ∧
    (∀ x ∈ (validate nodes rels).2, x ∈ nodes.map Node.id) := by
  refine ⟨?_, ?_, ?_⟩
  · intro rel hrel
    have hv := validate_fst_valid nodes rels rel hrel
    unfold isValidRel at hv
    rw [Bool.and_eq_true] at hv
    exact ⟨(dictContains_iff nodes _).mp hv.1, (dictContains_iff nodes _).mp hv.2⟩
  · intro x
    simpa using validate_snd_mem nodes rels x
  · exact fun x hx => validate_snd_subset nodes rels x hx

/-- Witness for C1 at the §8 scenario. -/
theorem C1_witness :
    demoRelAC.source.id ∈ demoNodes.map Node.id ∧
    demoRelAC.target.id ∈ demoNodes.map Node.id :=
  (C1_validator_postcondition demoNodes [demoRelAC, demoRelAX]).1 demoRelAC (by decide)

/-- Claim C2: rendered-graph membership — a node id is a vertex of the
rendered network iff it is an endpoint of at least one relationship of the
document whose both endpoints exist in the node set; isolated nodes are
absent. -/
theorem C2_rendered_membership (doc : GraphDocument) (rest : List GraphDocument)
    (net : Network) (x : String)
    (h : visualize_graph (some (doc :: rest)) = some net) :
    x ∈ net.node_ids ↔
      ∃ rel ∈ doc.relationships,
        rel.source.id ∈ doc.nodes.map Node.id ∧
        rel.target.id ∈ doc.nodes.map Node.id ∧
        (x = rel.source.id ∨ x = rel.target.id) := by
  obtain ⟨net2, heq, hids, hverts, hedges⟩ := visualize_graph_some doc rest
  rw [h] at heq
  obtain rfl := Option.some.inj heq
  rw [hids, validate_snd_mem, validate_fst_eq]
  constructor
  · rintro ⟨rel, hmem, hx⟩
    rw [List.mem_filter] at hmem
    have hv := hmem.2
    unfold isValidRel at hv
    rw [Bool.and_eq_true] at hv
    exact ⟨rel, hmem.1,
      (dictContains_iff _ _).mp hv.1, (dictContains_iff _ _).mp hv.2, hx⟩
  · rintro ⟨rel, hmem, hs, ht, hx⟩
    refine ⟨rel, ?_, hx⟩
    rw [List.mem_filter]
    refine ⟨hmem, ?_⟩
    unfold isValidRel
    rw [Bool.and_eq_true]
    exact ⟨(dictContains_iff _ _).mpr hs, (dictContains_iff _ _).mpr ht⟩

/-- Witness for C2: the isolated node B is absent from the demo network. -/
theorem C2_witness :
    "B" ∈ demoNet.node_ids ↔
      ∃ rel ∈ demoDoc.relationships,
        rel.source.id ∈ demoDoc.nodes.map Node.id ∧
        rel.target.id ∈ demoDoc.nodes.map Node.id ∧
        ("B" = rel.source.id ∨ "B" = rel.target.id) :=
  C2_rendered_membership demoDoc [] demoNet "B" (by decide)

/-- Counterexample to C3 as stated: in the file-upload flow a text longer
than the limit is silently cut down by `truncate_text` (src/app.py line
241) and the pipeline then starts on the truncated text, so an oversized
input is not rejected there. -/
theorem C3_counterexample :
    demoLongText.length > 5 ∧ uploadFlowStarts demoLongText 5 = true := by
  decide

/-- Claim C3 (amended): a text longer than `CHAR_LIMIT` that reaches
`handle_graph_generation` itself is rejected — the generation branch is not
entered, so no extraction call is made; the file-upload flow, however,
first truncates such a text to exactly `CHAR_LIMIT` characters (with a
warning) and only then calls `handle_graph_generation`, so an oversized
upload is truncated rather than rejected. -/
theorem C3_size_limit (text : List Char) (charLimit : Nat)
    (h : text.length > charLimit) :
    handleGraphGenerationStarts text charLimit = false ∧
    (truncate_text text charLimit).length = charLimit ∧
    uploadFlowStarts text charLimit =
      handleGraphGenerationStarts (truncate_text text charLimit) charLimit := by
  refine ⟨?_, ?_, rfl⟩
  · unfold handleGraphGenerationStarts
    have hle : ¬(text.length ≤ charLimit) := Nat.not_le.mpr h
    simp [hle]
  · unfold truncate_text
    rw [if_pos h, List.length_take]
    exact Nat.min_eq_left (Nat.le_of_lt h)

/-- Witness for C3 at a concrete oversized text. -/
theorem C3_witness :
    demoLongText.length > 5 ∧
    handleGraphGenerationStarts demoLongText 5 = false ∧
    (truncate_text demoLongText 5).length = 5 :=
  ⟨by decide, (C3_size_limit demoLongText 5 (by decide)).1,
   (C3_size_limit demoLongText 5 (by decide)).2.1⟩

/-- Claim C4: each retained relationship yields exactly one edge from
`source.id` to `target.id` labeled with the lower-cased relationship type;
on the §8 scenario the rendered graph has 2 vertices and the single edge
(A, works_for, C), with B and the dangling edge absent. -/
theorem C4_edge_labels (doc : GraphDocument) (rest : List GraphDocument)
    (net : Network) (h : visualize_graph (some (doc :: rest)) = some net) :
    net.edges = ((validate doc.nodes doc.relationships).1).map mkEdge ∧
    visualize_graph (some [demoDoc]) = some demoNet ∧
    validate demoDoc.nodes demoDoc.relationships = ([demoRelAC], ["A", "C"]) ∧
    demoNet.nodes.length = 2 ∧
    demoNet.edges = [Edge.mk "A" "C" "works_for"] ∧
    "B" ∉ demoNet.node_ids := by
  obtain ⟨net2, heq, hids, hverts, hedges⟩ := visualize_graph_some doc rest
  rw [h] at heq
  obtain rfl := Option.some.inj heq
  exact ⟨hedges, by decide, by decide, by decide, by decide, by decide⟩

/-- Witness for C4 at the §8 scenario. -/
theorem C4_witness :
    demoNet.edges = ((validate demoDoc.nodes demoDoc.relationships).1).map mkEdge :=
  (C4_edge_labels demoDoc [] demoNet (by decide)).1

/-- Claim C5: retained edges preserve the input's relative order (they form
a sublist of the input relationship list), relationships duplicated in the
input are each retained (occurrence counts of valid relationships are
preserved), and every retained edge becomes its own parallel edge of the
rendered network. -/
theorem C5_ordering_multigraph (nodes : List Node) (rels : List Relationship) :
    List.Sublist (validate nodes rels).1 rels ∧
    (∀ rel, isValidRel nodes rel = true →
      ((validate nodes rels).1).count rel = rels.count rel) ∧
    (∀ doc rest net, visualize_graph (some (doc :: rest)) = some net →
      net.edges.length = ((validate doc.nodes doc.relationships).1).length) := by
  refine ⟨?_, ?_, ?_⟩
  · rw [validate_fst_eq]
    exact List.filter_sublist rels
  · intro rel hv
    rw [validate_fst_eq, List.count_filter]
    simp [hv]
  · intro doc rest net h
    obtain ⟨net2, heq, _, _, hedges⟩ := visualize_graph_some doc rest
    rw [h] at heq
    obtain rfl := Option.some.inj heq
    rw [hedges, List.length_map]

/-- Witness for C5: a duplicated valid relationship is kept twice. -/
theorem C5_witness :
    ((validate demoNodes [demoRelAC, demoRelAC]).1).count demoRelAC =
      ([demoRelAC, demoRelAC] : List Relationship).count demoRelAC :=
  (C5_ordering_multigraph demoNodes [demoRelAC, demoRelAC]).2.1 demoRelAC (by decide)

/-- Claim C6: `validate` on empty input returns `([], [])`, and whenever
`valid_node_ids` is empty the Builder returns an empty artifact — zero
vertices and zero edges — rather than failing. -/
theorem C6_empty_totality (doc : GraphDocument) (rest : List GraphDocument)
    (h : (validate doc.nodes doc.relationships).2 = []) :
    validate ([] : List Node) ([] : List Relationship) = ([], []) ∧
    ∃ net, visualize_graph (some (doc :: rest)) = some net ∧
      net.nodes = [] ∧ net.edges = [] := by
  refine ⟨rfl, ?_⟩
  obtain ⟨net, heq, hids, hverts, hedges⟩ := visualize_graph_some doc rest
  have hfst : (validate doc.nodes doc.relationships).1 = [] := by
    by_contra hne
    obtain ⟨rel, hrel⟩ := List.exists_mem_of_ne_nil _ hne
    have hsm := (validate_endpoints_mem _ _ rel hrel).1
    rw [h] at hsm
    exact absurd hsm (List.not_mem_nil _)
  refine ⟨net, heq, ?_, ?_⟩
  · rw [h] at hverts
    exact List.map_eq_nil_iff.mp hverts
  · rw [hfst] at hedges
    simpa using hedges

/-- Witness for C6 at the empty document. -/
theorem C6_witness :
    ∃ net, visualize_graph (some [(⟨[], []⟩ : GraphDocument)]) = some net ∧
      net.nodes = [] ∧ net.edges = [] :=
  (C6_empty_totality ⟨[], []⟩ [] (by decide)).2

/-- Claim C7: the Builder's edge loop is total on any network and any edge
list — it computes the network extended by exactly the insertable edges, so
an edge whose insertion fails (an endpoint missing from the vertex set)
leaves the network unchanged while the loop continues with the remaining
edges; no edge ever aborts the run. -/
theorem C7_defensive_skip (net : Network) (rels : List Relationship) :
    addValidEdges net rels =
      { net with edges := net.edges ++ (rels.filter (edgeOk net)).map mkEdge } ∧
    (∀ rel rest, edgeOk net rel = false →
      addValidEdges net (rel :: rest) = addValidEdges net rest) := by
  constructor
  · obtain ⟨h1, h2, h3⟩ := addValidEdges_spec rels net
    exact Network.fields_eq _ _ (by rw [h1]) (by rw [h2]) (by rw [h3])
  · intro rel rest hfail
    have hskip : addEdgeStep net rel = net := by
      rw [addEdgeStep_eq, hfail]
      simp
    show addValidEdges (addEdgeStep net rel) rest = addValidEdges net rest
    rw [hskip]

/-- Witness for C7: the dangling edge (A, KNOWS, X) is skipped and the
remaining list is processed as if it were absent. -/
theorem C7_witness :
    addValidEdges demoNet (demoRelAX :: [demoRelAC]) = addValidEdges demoNet [demoRelAC] :=
  (C7_defensive_skip demoNet []).2 demoRelAX [demoRelAC] (by decide)

/-- Claim C8: vertex insertion is idempotent — adding an id that is already
present is a no-op, whatever attributes accompany it — and every vertex id
of a rendered graph occurs on exactly one vertex. -/
theorem C8_vertex_idempotent (net : Network) (i lab tit grp lab2 tit2 grp2 : String)
    (doc : GraphDocument) (rest : List GraphDocument) (net2 : Network) (x : String)
    (h : visualize_graph (some (doc :: rest)) = some net2)
    (hx : x ∈ net2.node_ids) :
    addNode (addNode net i lab tit grp) i lab2 tit2 grp2 = addNode net i lab tit grp ∧
    (net2.nodes.filter (fun v => v.id == x)).length = 1 := by
  constructor
  · have hmem2 : i ∈ (addNode net i lab tit grp).node_ids := by
      rw [addNode_node_ids]
      by_cases hmem : i ∈ net.node_ids
      · simp [hmem]
      · simp [hmem]
    exact addNode_of_mem _ _ _ _ _ hmem2
  · obtain ⟨net3, heq, hids, hverts, hedges⟩ := visualize_graph_some doc rest
    rw [h] at heq
    obtain rfl := Option.some.inj heq
    have hnodup : (net2.nodes.map Vertex.id).Nodup := by
      rw [hverts]
      exact validate_snd_nodup _ _
    have hxm : x ∈ net2.nodes.map Vertex.id := by
      rw [hverts, ← hids]
      exact hx
    have hcount : (net2.nodes.map Vertex.id).count x = 1 :=
      List.count_eq_one_of_mem hnodup hxm
    rw [← hcount, List.count, List.countP_map, List.countP_eq_length_filter]
    rfl

/-- Witness for C8 at the demo network. -/
theorem C8_witness :
    addNode (addNode emptyNetwork "A" "A" "Person" "Person") "A" "A" "Org" "Org" =
      addNode emptyNetwork "A" "A" "Person" "Person" ∧
    (demoNet.nodes.filter (fun v => v.id == "A")).length = 1 :=
  C8_vertex_idempotent emptyNetwork "A" "A" "Person" "Person" "A" "Org" "Org"
    demoDoc [] demoNet "A" (by decide) (by decide)

/-- Claim C9: the Validator and Builder are pure deterministic functions of
their inputs — identical node sets and relationship lists give identical
validation results and identical rendered networks (both are total Lean
functions of their arguments, performing no I/O). -/
theorem C9_determinism (n1 n2 : List Node) (r1 r2 : List Relationship)
    (hn : n1 = n2) (hr : r1 = r2) :
    validate n1 r1 = validate n2 r2 ∧
    visualize_graph (some [⟨n1, r1⟩]) = visualize_graph (some [⟨n2, r2⟩]) := by
  subst hn
  subst hr
  exact ⟨rfl, rfl⟩

/-- Witness for C9 at the §8 scenario. -/
theorem C9_witness :
    validate demoNodes [demoRelAC, demoRelAX] = validate demoNodes [demoRelAC, demoRelAX] ∧
    visualize_graph (some [⟨demoNodes, [demoRelAC, demoRelAX]⟩]) =
      visualize_graph (some [⟨demoNodes, [demoRelAC, demoRelAX]⟩]) :=
  C9_determinism demoNodes demoNodes [demoRelAC, demoRelAX] [demoRelAC, demoRelAX] rfl rfl

/-- Claim C10: an empty extraction batch — Python `None` or the empty
list — makes `visualize_graph` return `None` and the surrounding pipeline
return the failure pair `(None, None)`, whereas any non-empty batch, even
one with zero valid relationships, yields a real network and the pair
`(net, graph_documents)`. -/
theorem C10_empty_extraction_failure :
    visualize_graph none = none ∧
    visualize_graph (some []) = none ∧
    generate_knowledge_graph_async none = (none, none) ∧
    generate_knowledge_graph_async (some []) = (none, none) ∧
    (∀ doc rest, ∃ net, visualize_graph (some (doc :: rest)) = some net ∧
      generate_knowledge_graph_async (some (doc :: rest)) = (some net, some (doc :: rest))) := by
  refine ⟨rfl, rfl, rfl, rfl, ?_⟩
  intro doc rest
  obtain ⟨net, heq, _, _, _⟩ := visualize_graph_some doc rest
  refine ⟨net, heq, ?_⟩
  show (match visualize_graph (some (doc :: rest)) with
        | some net => (some net, some (doc :: rest))
        | none => (none, none)) = _
  rw [heq]

end KG
